import Mathlib

/-!
Verification of the Smart-Buddy core against its natural-language
specification.  The Python modules under `smart_buddy/` are shallowly
embedded: pure functions become Lean functions, the SQLite-backed
`MemoryBank` and the global `AuditTrail` become explicit state records
threaded through the handlers, and Python exceptions become `Except`.
External collaborators (wall-clock `time.time()`, `uuid4`, the sentence
encoder, the regex tokenizer, `datetime` parsing) are parameters of the
embedding.
-/

namespace SmartBuddy

/-! ## Small utilities shared by the embedding

String primitives are written over `List Char` (structural recursion) so
that concrete runs reduce inside the kernel; each models the Python
string operation named in its doc comment. -/

/-- Whether `needle` occurs as a contiguous sublist of `hay`. -/
def charsInfix (needle : List Char) : List Char → Bool
  | [] => needle.isEmpty
  | c :: t => needle.isPrefixOf (c :: t) || charsInfix needle t

/-- Python `needle in hay` on strings: substring containment. -/
def strContains (hay needle : String) : Bool :=
  charsInfix needle.toList hay.toList

/-- Python `s.lower()`. -/
def strLower (s : String) : String :=
  String.mk (s.toList.map Char.toLower)

/-- Python `s.strip()`. -/
def strTrim (s : String) : String :=
  String.mk
    (((s.toList.dropWhile Char.isWhitespace).reverse.dropWhile
        Char.isWhitespace).reverse)

/-- Python `s[:n]` (slice of the first `n` code points). -/
def strTake (s : String) (n : Nat) : String :=
  String.mk (s.toList.take n)

/-- Helper for `splitWords`: accumulate the current word in `acc`. -/
def splitWordsAux : List Char → List Char → List String
  | [], acc => if acc.isEmpty then [] else [String.mk acc.reverse]
  | c :: t, acc =>
      if c.isWhitespace then
        if acc.isEmpty then splitWordsAux t []
        else String.mk acc.reverse :: splitWordsAux t []
      else splitWordsAux t (c :: acc)

/-- Python `text.split()`: split on whitespace runs, dropping empties. -/
def splitWords (s : String) : List String :=
  splitWordsAux s.toList []

/-- Association-list lookup, modelling a Python dict read. -/
def alistGet {α : Type} (k : String) : List (String × α) → Option α
  | [] => none
  | (k', v) :: t => if k' = k then some v else alistGet k t

/-- Association-list upsert, modelling a Python dict write / SQL `REPLACE`. -/
def upsert {α : Type} (k : String) (v : α) : List (String × α) → List (String × α)
  | [] => [(k, v)]
  | (k', v') :: t => if k' = k then (k, v) :: t else (k', v') :: upsert k v t

theorem alistGet_upsert {α : Type} (k : String) (v : α) (l : List (String × α)) :
    alistGet k (upsert k v l) = some v := by
  induction l with
  | nil => simp [upsert, alistGet]
  | cons h t ih =>
    by_cases hk : h.1 = k <;> simp [upsert, alistGet, hk, ih]

/-- Python `d.get(key) or default`: the default is used when the key is
absent **or** maps to a falsy value (the empty string). -/
def orDefault (o : Option String) (d : String) : String :=
  match o with
  | none => d
  | some s => if s = "" then d else s

/-- Python `d.get(key, default)`: the default is used only when absent. -/
def getDefault (o : Option String) (d : String) : String :=
  match o with
  | none => d
  | some s => s

/-! ## Python-ish dynamic values

`PyVal` models the two shapes in which an intent confidence reaches the
planner: a JSON number or a JSON string.  The classifier produces strings
("0.9"), while the tests call the planner with floats. -/

inductive PyVal : Type where
  | pyNum (q : ℚ)
  | pyStr (s : String)
deriving DecidableEq, Repr

/-- Whether a `PyVal` is numeric. -/
def PyVal.isNum : PyVal → Bool
  | .pyNum _ => true
  | .pyStr _ => false

/-- Python `v >= c` with `c` a float: succeeds on a number, raises
`TypeError` on a string.  (The float literal 0.85 is written `mkRat 17 20`
at the call site.) -/
def pyGE (v : PyVal) (c : ℚ) : Except String Bool :=
  match v with
  | .pyNum q => .ok (decide (c ≤ q))
  | .pyStr _ =>
      .error "TypeError: '>=' not supported between instances of 'str' and 'float'"

/-! ## IntentAgent (`smart_buddy/agents/intent.py`)

The source's `IntentPrediction` TypedDict declares `confidence: str`; the
classifier literally returns string literals such as `"0.9"`.  We keep the
field at type `PyVal` so the same envelope type can also carry the numeric
confidences used by the planner's own tests. -/

structure IntentPrediction where
  intent : String
  confidence : PyVal
deriving DecidableEq, Repr

/-- Keyword lists used by `IntentAgent.classify`, in source order. -/
def plannerCues : List String :=
  ["teach", "explain", "learn", "what is", "how does", "advice", "suggest",
   "plan", "roadmap", "problem", "stuck", "review", "feedback"]

def taskCues : List String :=
  ["task", "todo", "remind", "reminder", "add event", "schedule", "calendar"]

def emotionCues : List String :=
  ["sad", "stress", "anx", "feel", "upset", "depress", "lonely", "happy", "excited"]

def summaryCues : List String :=
  ["summary", "summarize", "tl;dr", "summ"]

/-- `IntentAgent.classify`: case-insensitive substring matching against the
four cue lists, first match wins, else `general`. -/
def classify (text : String) : IntentPrediction :=
  if plannerCues.any (strContains (strLower text)) then
    ⟨"planner", .pyStr "0.9"⟩
  else if taskCues.any (strContains (strLower text)) then
    ⟨"task", .pyStr "0.9"⟩
  else if emotionCues.any (strContains (strLower text)) then
    ⟨"emotion", .pyStr "0.9"⟩
  else if summaryCues.any (strContains (strLower text)) then
    ⟨"summary", .pyStr "0.8"⟩
  else
    ⟨"general", .pyStr "0.6"⟩

/-- C5 (counterexample): at the concrete input "hello" the classifier
returns the *string* "0.6" as its confidence, not a float, refuting the
claim that `classify` yields a float confidence in [0,1]. -/
theorem classify_confidence_is_string_at_hello :
    (classify "hello").confidence = PyVal.pyStr "0.6" ∧
      ((classify "hello").confidence).isNum = false := by
  constructor <;> rfl

/-- C5 (amended): for every input text, `classify` returns an intent among
{planner, task, emotion, summary, general} and a confidence that is one of
the decimal *strings* "0.9", "0.8", "0.6" (each denoting a value in [0,1]),
never a numeric value. -/
theorem classify_intent_and_confidence_range (text : String) :
    (classify text).intent ∈
        ["planner", "task", "emotion", "summary", "general"] ∧
      (classify text).confidence ∈
        [PyVal.pyStr "0.9", PyVal.pyStr "0.8", PyVal.pyStr "0.6"] := by
  unfold classify
  split
  · exact ⟨by simp, by simp⟩
  split
  · exact ⟨by simp, by simp⟩
  split
  · exact ⟨by simp, by simp⟩
  split
  · exact ⟨by simp, by simp⟩
  exact ⟨by simp, by simp⟩

/-! ## Planner depth heuristics (`PlannerAgent._determine_depth`) -/

/-- The planner's `depth` configuration dictionary. -/
structure Depth where
  steps : Nat
  level : String
  reflection_prompts : Nat
deriving DecidableEq, Repr

/-- The fixed complexity-trigger vocabulary, in source order. -/
def complexityTriggers : List String :=
  ["roadmap", "launch", "strategy", "architecture", "curriculum",
   "campaign", "research", "bootcamp"]

/-- Whether the goal is long (>40 words) or contains a trigger word. -/
def goalIsComplex (goal : String) : Bool :=
  decide ((splitWords goal).length > 40) ||
    complexityTriggers.any (strContains (strLower goal))

/-- `PlannerAgent._determine_depth`.  The confidence reaches this code as a
dynamic value; comparing a string against the float `0.85` raises
`TypeError` (surfaced here as `Except.error`). -/
def determineDepth (confidence : PyVal) (goal : String) : Except String Depth :=
  let base : Nat := if goalIsComplex goal then 6 else 4
  let level : String := if goalIsComplex goal then "deep" else "standard"
  match pyGE confidence (mkRat 17 20) with
  | .error e => .error e
  | .ok hi =>
      let steps := if hi then min (base + 1) 8 else base
      let level' :=
        if hi then (if level = "standard" then "comprehensive" else level)
        else level
      .ok ⟨steps, level', if level' ≠ "standard" then 2 else 1⟩

/-- C3: with a numeric confidence, depth determination never raises and is
the stated pure function of goal text and confidence: complex goals
(>40 words or a trigger word) get 6 steps and level "deep", 7 when the
confidence reaches 0.85; other goals get 4 steps and level "standard", or
5 steps and "comprehensive" at confidence ≥ 0.85; reflection prompts are 2
exactly when the level is not "standard"; and a confidence ≥ 0.85 never
yields fewer steps than any other confidence on the same goal. -/
theorem determineDepth_spec (goal : String) (c c' : ℚ) :
    ∃ d d' : Depth,
      determineDepth (.pyNum c) goal = .ok d ∧
      determineDepth (.pyNum c') goal = .ok d' ∧
      (goalIsComplex goal = true →
        d.steps = (if mkRat 17 20 ≤ c then 7 else 6) ∧ d.level = "deep") ∧
      (goalIsComplex goal = false →
        d.steps = (if mkRat 17 20 ≤ c then 5 else 4) ∧
          d.level = (if mkRat 17 20 ≤ c then "comprehensive" else "standard")) ∧
      d.reflection_prompts = (if d.level ≠ "standard" then 2 else 1) ∧
      (mkRat 17 20 ≤ c → d'.steps ≤ d.steps) := by
  by_cases hc : mkRat 17 20 ≤ c <;> by_cases hc' : mkRat 17 20 ≤ c' <;>
    cases hg : goalIsComplex goal <;>
      simp [determineDepth, pyGE, hg, hc, hc']

/-- Concrete instantiation of `determineDepth_spec`: a goal containing the
trigger "roadmap" at confidence 0.9 versus 0.1. -/
theorem determineDepth_spec_witness :
    ∃ d d' : Depth,
      determineDepth (.pyNum (mkRat 9 10)) "a roadmap" = .ok d ∧
      determineDepth (.pyNum (mkRat 1 10)) "a roadmap" = .ok d' ∧
      (goalIsComplex "a roadmap" = true →
        d.steps = (if mkRat 17 20 ≤ mkRat 9 10 then 7 else 6) ∧ d.level = "deep") ∧
      (goalIsComplex "a roadmap" = false →
        d.steps = (if mkRat 17 20 ≤ mkRat 9 10 then 5 else 4) ∧
          d.level = (if mkRat 17 20 ≤ mkRat 9 10 then "comprehensive" else "standard")) ∧
      d.reflection_prompts = (if d.level ≠ "standard" then 2 else 1) ∧
      (mkRat 17 20 ≤ mkRat 9 10 → d'.steps ≤ d.steps) :=
  determineDepth_spec "a roadmap" (mkRat 9 10) (mkRat 1 10)

/-! ## JSON-ish values for tool outputs, diagnostics and audit payloads -/

inductive Val : Type where
  | s (x : String)
  | n (x : Nat)
  | b (x : Bool)
  | list (xs : List Val)
  | dict (xs : List (String × Val))

/-- A calendar event as stored by `CalendarTool._add_hold`. -/
structure CalEvent where
  title : String
  date : String
  time : String
  source : String
deriving DecidableEq, Repr

def calEventVal (e : CalEvent) : Val :=
  .dict [("title", .s e.title), ("date", .s e.date),
         ("time", .s e.time), ("source", .s e.source)]

/-- The router's session footprint `{user_id, intent}`. -/
structure SessionRec where
  user_id : String
  intent : IntentPrediction
deriving DecidableEq, Repr

/-! ## AuditTrail (`smart_buddy/audit.py`)

A bounded ring buffer (`deque(maxlen=500)`, `appendleft`) of structured
events with a monotonically increasing id. -/

structure AuditEvent where
  id : Nat
  event_type : String
  trace_id : String
  severity : String
  payload : List (String × Val)
  timestamp : ℚ
  status : String
  notes : List String

structure AuditState where
  events : List AuditEvent
  next_id : Nat

/-- `AuditTrail.record`.  `time.time()` is modelled by the `now`
parameter. -/
def auditRecord (now : ℚ) (event_type : String) (trace_id : Option String)
    (severity : String) (payload : List (String × Val))
    (a : AuditState) : AuditState :=
  { events :=
      (({ id := a.next_id, event_type := event_type,
          trace_id := orDefault trace_id "unknown", severity := severity,
          payload := payload, timestamp := now, status := "open",
          notes := [] } : AuditEvent) :: a.events).take 500,
    next_id := a.next_id + 1 }

/-! ## MemoryBank (`smart_buddy/memory.py`)

The SQLite table of `(namespace, key) → JSON` is modelled by one typed
association list per namespace in use by the verified components
(`planner_runs`, `events`, `sessions`).  `set` is `REPLACE INTO`
(whole-value upsert) and also records a `memory_write` audit event; the
`value_preview` audit field (Python `str(value)[:120]`) depends on
Python's repr of dynamic dicts and is left out of the payload model. -/

structure PlanStep where
  step : Nat
  action : String
  success : String
  status : String
deriving DecidableEq, Repr

structure ExecEntry where
  step : Nat
  action : String
  result : String
  status : String
deriving DecidableEq, Repr

structure TimelineEntry where
  stage : String
  summary : String
  timestamp : ℚ
deriving DecidableEq, Repr

structure ToolCallEntry where
  step : Nat
  tool : String
  success : Bool
  output : Val
  diagnostics : List (String × Val)

/-- The planner's persisted `plan_state` checkpoint. -/
structure Checkpoint where
  plan_id : String
  user_id : String
  session_id : String
  goal : String
  depth : Depth
  steps : List PlanStep
  execution_log : List ExecEntry
  tool_calls : List ToolCallEntry
  reflection : String
  timeline : List TimelineEntry
  done : Bool
  timestamp : ℚ

structure Mem where
  planner_runs : List (String × Checkpoint)
  events : List (String × List CalEvent)
  sessions : List (String × SessionRec)

/-- The shared mutable world: the `MemoryBank` contents plus the global
`audit_trail`. -/
structure SysState where
  mem : Mem
  audit : AuditState

def emptySysState : SysState :=
  ⟨⟨[], [], []⟩, ⟨[], 1⟩⟩

/-- `MemoryBank.set` on namespace `planner_runs`. -/
def memSetPlannerRuns (now : ℚ) (trace : Option String) (key : String)
    (v : Checkpoint) (st : SysState) : SysState :=
  { mem := { st.mem with planner_runs := upsert key v st.mem.planner_runs },
    audit := auditRecord now "memory_write" trace "info"
      [("namespace", .s "planner_runs"), ("key", .s key)] st.audit }

/-- `MemoryBank.set` on namespace `events`. -/
def memSetEvents (now : ℚ) (trace : Option String) (key : String)
    (v : List CalEvent) (st : SysState) : SysState :=
  { mem := { st.mem with events := upsert key v st.mem.events },
    audit := auditRecord now "memory_write" trace "info"
      [("namespace", .s "events"), ("key", .s key)] st.audit }

/-- `MemoryBank.set` on namespace `sessions`. -/
def memSetSessions (now : ℚ) (trace : Option String) (key : String)
    (v : SessionRec) (st : SysState) : SysState :=
  { mem := { st.mem with sessions := upsert key v st.mem.sessions },
    audit := auditRecord now "memory_write" trace "info"
      [("namespace", .s "sessions"), ("key", .s key)] st.audit }

/-! ## Tools and the registry (`smart_buddy/tools/`) -/

structure ToolRequest where
  name : String
  arguments : List (String × String)
  user_id : String
  session_id : String
  trace_id : String

structure ToolResult where
  name : String
  success : Bool
  output : Val
  diagnostics : List (String × Val)

/-- A registered tool: its name, its `is_allowed` guardrail predicate and
its `invoke`.  `invoke` may end in `Except.error`, modelling a Python
exception escaping the tool body. -/
structure ToolImpl where
  name : String
  is_allowed : ToolRequest → Bool
  invoke : ToolRequest → ℚ → SysState → Except String (ToolResult × SysState)

def argsVal (args : List (String × String)) : Val :=
  .dict (args.map (fun p => (p.1, .s p.2)))

/-- `Tool.is_allowed` in the base class: only the max-argument-count
guardrail. -/
def baseAllowed (max_args : Nat) (req : ToolRequest) : Bool :=
  req.arguments.length ≤ max_args

/-- `ToolRegistry.call`: unknown names raise; guardrail rejections return a
`guardrail_violation` result and audit at "warn" without entering
`invoke`; exceptions inside `invoke` are caught, audited at "error" and
converted into a failed `ToolResult`. -/
def registryCall (tools : List ToolImpl) (name user_id session_id trace_id : String)
    (arguments : List (String × String)) (now : ℚ) (st : SysState) :
    Except String (ToolResult × SysState) :=
  match tools.find? (fun t => t.name == name) with
  | none => .error ("Unknown tool: " ++ name)
  | some tool =>
      let req : ToolRequest := ⟨name, arguments, user_id, session_id, trace_id⟩
      if tool.is_allowed req then
        match tool.invoke req now st with
        | .ok (result, st') =>
            let a :=
              auditRecord now "tool_call" (some trace_id)
                (if result.success then "info" else "warn")
                [("tool", .s name), ("user_id", .s user_id),
                 ("session_id", .s session_id), ("arguments", argsVal arguments),
                 ("success", .b result.success),
                 ("diagnostics", .dict result.diagnostics)] st'.audit
            .ok (result, { st' with audit := a })
        | .error exc =>
            let a :=
              auditRecord now "tool_call" (some trace_id) "error"
                [("tool", .s name), ("user_id", .s user_id),
                 ("session_id", .s session_id), ("arguments", argsVal arguments),
                 ("success", .b false),
                 ("diagnostics", .dict [("error", .s exc)])] st.audit
            .ok (⟨name, false, .dict [], [("error", .s exc)]⟩,
              { st with audit := a })
      else
        let a :=
          auditRecord now "tool_call" (some trace_id) "warn"
            [("tool", .s name), ("user_id", .s user_id),
             ("session_id", .s session_id), ("arguments", argsVal arguments),
             ("result", .s "guardrail_violation")] st.audit
        .ok (⟨name, false, .dict [], [("error", .s "guardrail_violation")]⟩,
          { st with audit := a })

/-! ### CalendarTool (`smart_buddy/tools/calendar.py`) -/

def calendarAllowedActions : List String := ["list_upcoming", "add_hold"]

/-- `CalendarTool.is_allowed`: base max-args (6) plus the allowed-action
whitelist; a missing or empty action defaults to `list_upcoming`. -/
def calendarIsAllowed (req : ToolRequest) : Bool :=
  baseAllowed 6 req &&
    calendarAllowedActions.contains
      (orDefault (alistGet "action" req.arguments) "list_upcoming")

/-- `CalendarTool.invoke`.  `datetime.fromisoformat` with its
utcnow-plus-one-day fallback is the external collaborator `resolveDate`. -/
def calendarInvoke (resolveDate : Option String → String)
    (req : ToolRequest) (now : ℚ) (st : SysState) :
    Except String (ToolResult × SysState) :=
  let action := orDefault (alistGet "action" req.arguments) "list_upcoming"
  if action = "add_hold" then
    let title := strTake (strTrim (orDefault (alistGet "title" req.arguments) "Hold")) 80
    if title = "" then
      .ok (⟨"calendar.manage", false, .dict [], [("error", .s "missing_title")]⟩, st)
    else
      let event : CalEvent :=
        ⟨title, resolveDate (alistGet "date" req.arguments),
         getDefault (alistGet "time" req.arguments) "09:00", "tool_bus"⟩
      let events := (alistGet req.user_id st.mem.events).getD [] ++ [event]
      .ok (⟨"calendar.manage", true, .dict [("created", calEventVal event)],
            [("total_events", .n events.length)]⟩,
        memSetEvents now (some req.trace_id) req.user_id events st)
  else
    let events := (alistGet req.user_id st.mem.events).getD []
    let upcoming := (events.drop (events.length - 3)).reverse
    .ok (⟨"calendar.manage", true,
          .dict [("events", .list (upcoming.map calEventVal))],
          [("count", .n upcoming.length)]⟩, st)

def calendarToolWith
    (inv : ToolRequest → ℚ → SysState → Except String (ToolResult × SysState)) :
    ToolImpl :=
  ⟨"calendar.manage", calendarIsAllowed, inv⟩

def calendarTool (resolveDate : Option String → String) : ToolImpl :=
  calendarToolWith (calendarInvoke resolveDate)

/-! ### DocumentLookupTool (`smart_buddy/tools/docs.py`)

The records indexed from the docs directory at construction time are a
parameter of the embedding (filesystem contents are external). -/

structure DocRecord where
  path : String
  title : String
  content : String
deriving DecidableEq, Repr

def docsHitVal (r : DocRecord) : Val :=
  .dict [("title", .s r.title), ("path", .s r.path),
         ("excerpt", .s (strTake r.content 240 ++ "…"))]

/-- The hit-collection loop of `DocumentLookupTool.invoke`: scan records,
collect case-insensitive substring matches, stop at 3 hits. -/
def docsScan (query : String) : List DocRecord → List DocRecord → List DocRecord
  | [], hits => hits
  | r :: rest, hits =>
      if hits.length ≥ 3 then hits
      else if strContains (strLower r.content) (strLower query) then
        docsScan query rest (hits ++ [r])
      else docsScan query rest hits

def docsInvoke (records : List DocRecord) (req : ToolRequest) (_now : ℚ)
    (st : SysState) : Except String (ToolResult × SysState) :=
  let query := strTrim (orDefault (alistGet "query" req.arguments) "")
  if query = "" ∨ query.length > 160 then
    .ok (⟨"docs.lookup", false, .dict [], [("error", .s "invalid_query")]⟩, st)
  else
    let hits := docsScan query (records.take 25) []
    .ok (⟨"docs.lookup", true, .dict [("hits", .list (hits.map docsHitVal))],
          [("query", .s query), ("hit_count", .n hits.length)]⟩, st)

def docsTool (records : List DocRecord) : ToolImpl :=
  ⟨"docs.lookup", baseAllowed 4, docsInvoke records⟩

/-! ### CuratedWebSearchTool (`smart_buddy/tools/web.py`) -/

structure CuratedResult where
  title : String
  url : String
  summary : String
  tags : List String
deriving DecidableEq, Repr

def curatedResults : List CuratedResult :=
  [⟨"AI Observability Basics", "https://example.org/observability",
    "Explains latency percentiles, trace IDs, and metrics useful for agent systems.",
    ["metrics", "observability"]⟩,
   ⟨"Tool Orchestration Blueprint", "https://example.org/tools",
    "Patterns for secure tool execution, guardrails, and audit logging.",
    ["tools", "security"]⟩,
   ⟨"Education Benchmarks 2025", "https://example.org/edu-bench",
    "Latest data on AI tutor effectiveness across 50 judge scenarios.",
    ["education", "benchmarks"]⟩]

def webAllowedTags : List String := ["metrics", "tools", "education"]

def curatedVal (r : CuratedResult) : Val :=
  .dict [("title", .s r.title), ("url", .s r.url), ("summary", .s r.summary),
         ("tags", .list (r.tags.map Val.s))]

/-- Whether a curated result survives the query substring filter (an empty
query keeps everything). -/
def webQueryPass (query : String) (r : CuratedResult) : Bool :=
  !(query ≠ "" && !strContains (strLower r.summary) query &&
      !strContains (strLower r.title) query)

/-- The result loop of `CuratedWebSearchTool.invoke`: the disallowed-tag
early return (`unsafe_tag`) fires at the first record that survives the
query filter. -/
def webScan (query tag : String) : List CuratedResult → Except String (List CuratedResult)
  | [] => .ok []
  | r :: rest =>
      if !webQueryPass query r then webScan query tag rest
      else if tag ≠ "" && !webAllowedTags.contains tag then .error "unsafe_tag"
      else if tag ≠ "" && !r.tags.contains tag then webScan query tag rest
      else
        match webScan query tag rest with
        | .ok hits => .ok (r :: hits)
        | .error e => .error e

def webInvoke (req : ToolRequest) (_now : ℚ) (st : SysState) :
    Except String (ToolResult × SysState) :=
  let query := strLower (orDefault (alistGet "query" req.arguments) "")
  let tag := strLower (orDefault (alistGet "tag" req.arguments) "")
  match webScan query tag curatedResults with
  | .error _ =>
      .ok (⟨"web.search", false, .dict [], [("error", .s "unsafe_tag")]⟩, st)
  | .ok hits =>
      .ok (⟨"web.search", true,
            .dict [("hits", .list ((hits.take 3).map curatedVal))],
            [("query", .s query), ("tag", .s tag),
             ("hit_count", .n (hits.take 3).length)]⟩, st)

def webTool : ToolImpl :=
  ⟨"web.search", baseAllowed 4, webInvoke⟩

/-- `build_default_registry` (without the optional MCP tools, whose imports
are guarded and absent in the core dependency set). -/
def defaultTools (resolveDate : Option String → String)
    (docsRecords : List DocRecord) : List ToolImpl :=
  [calendarTool resolveDate, docsTool docsRecords, webTool]

/-! ## Guardrail and registry theorems -/

/-- Computation rule for `registryCall` when the guardrail blocks. -/
theorem registryCall_blocked (tools : List ToolImpl)
    (name user session trace : String) (args : List (String × String))
    (now : ℚ) (st : SysState) (tool : ToolImpl)
    (hfind : tools.find? (fun t => t.name == name) = some tool)
    (hallow : tool.is_allowed ⟨name, args, user, session, trace⟩ = false) :
    registryCall tools name user session trace args now st =
      .ok (⟨name, false, .dict [], [("error", .s "guardrail_violation")]⟩,
        { st with
            audit :=
              auditRecord now "tool_call" (some trace) "warn"
                [("tool", .s name), ("user_id", .s user),
                 ("session_id", .s session), ("arguments", argsVal args),
                 ("result", .s "guardrail_violation")] st.audit }) := by
  simp [registryCall, hfind, hallow]

/-- Computation rule for `registryCall` when the guardrail passes and
`invoke` returns normally. -/
theorem registryCall_invoked (tools : List ToolImpl)
    (name user session trace : String) (args : List (String × String))
    (now : ℚ) (st : SysState) (tool : ToolImpl) (result : ToolResult)
    (st₁ : SysState)
    (hfind : tools.find? (fun t => t.name == name) = some tool)
    (hallow : tool.is_allowed ⟨name, args, user, session, trace⟩ = true)
    (hinv : tool.invoke ⟨name, args, user, session, trace⟩ now st
        = .ok (result, st₁)) :
    registryCall tools name user session trace args now st =
      .ok (result,
        { st₁ with
            audit :=
              auditRecord now "tool_call" (some trace)
                (if result.success then "info" else "warn")
                [("tool", .s name), ("user_id", .s user),
                 ("session_id", .s session), ("arguments", argsVal args),
                 ("success", .b result.success),
                 ("diagnostics", .dict result.diagnostics)] st₁.audit }) := by
  simp [registryCall, hfind, hallow, hinv]

/-- Computation rule for `registryCall` when `invoke` raises. -/
theorem registryCall_raised (tools : List ToolImpl)
    (name user session trace : String) (args : List (String × String))
    (now : ℚ) (st : SysState) (tool : ToolImpl) (exc : String)
    (hfind : tools.find? (fun t => t.name == name) = some tool)
    (hallow : tool.is_allowed ⟨name, args, user, session, trace⟩ = true)
    (hinv : tool.invoke ⟨name, args, user, session, trace⟩ now st
        = .error exc) :
    registryCall tools name user session trace args now st =
      .ok (⟨name, false, .dict [], [("error", .s exc)]⟩,
        { st with
            audit :=
              auditRecord now "tool_call" (some trace) "error"
                [("tool", .s name), ("user_id", .s user),
                 ("session_id", .s session), ("arguments", argsVal args),
                 ("success", .b false),
                 ("diagnostics", .dict [("error", .s exc)])] st.audit }) := by
  simp [registryCall, hfind, hallow, hinv]

/-- C6: calling the registry's `calendar.manage` with an action outside
{list_upcoming, add_hold} returns `success=false` with diagnostics error
"guardrail_violation", records a "warn"-severity audit event, leaves the
whole memory (in particular the `events` namespace) untouched, and never
enters the tool's `invoke` (the result is the same for every invoke
function `inv`). -/
theorem calendar_guardrail_blocks_disallowed_action
    (inv : ToolRequest → ℚ → SysState → Except String (ToolResult × SysState))
    (docsRecords : List DocRecord) (user session trace : String)
    (args : List (String × String)) (now : ℚ) (st : SysState)
    (h : calendarAllowedActions.contains
        (orDefault (alistGet "action" args) "list_upcoming") = false) :
    ∃ res st',
      registryCall (calendarToolWith inv :: docsTool docsRecords :: [webTool])
          "calendar.manage" user session trace args now st = .ok (res, st') ∧
      res.success = false ∧
      alistGet "error" res.diagnostics = some (.s "guardrail_violation") ∧
      st'.mem = st.mem ∧
      st'.audit =
        auditRecord now "tool_call" (some trace) "warn"
          [("tool", .s "calendar.manage"), ("user_id", .s user),
           ("session_id", .s session), ("arguments", argsVal args),
           ("result", .s "guardrail_violation")] st.audit := by
  have hblock :
      calendarIsAllowed ⟨"calendar.manage", args, user, session, trace⟩
        = false := by
    simp only [calendarIsAllowed, h, Bool.and_false]
  exact ⟨_, _,
    registryCall_blocked _ _ user session trace args now st _ rfl hblock,
    rfl, by simp [alistGet], rfl, rfl⟩

/-- Concrete instantiation of the calendar guardrail theorem at the
action "delete_all" on the empty state. -/
theorem calendar_guardrail_blocks_disallowed_action_witness :
    (calendarAllowedActions.contains
        (orDefault (alistGet "action" [("action", "delete_all")]) "list_upcoming")
      = false) ∧
    ∃ res st',
      registryCall
          (calendarToolWith (calendarInvoke (fun _ => "2030-01-01T00:00:00"))
            :: docsTool [] :: [webTool])
          "calendar.manage" "u" "s" "t" [("action", "delete_all")] 0 emptySysState
        = .ok (res, st') ∧
      res.success = false ∧
      alistGet "error" res.diagnostics = some (.s "guardrail_violation") ∧
      st'.mem = emptySysState.mem ∧
      st'.audit =
        auditRecord 0 "tool_call" (some "t") "warn"
          [("tool", .s "calendar.manage"), ("user_id", .s "u"),
           ("session_id", .s "s"), ("arguments", argsVal [("action", "delete_all")]),
           ("result", .s "guardrail_violation")] emptySysState.audit :=
  ⟨by decide,
   calendar_guardrail_blocks_disallowed_action
     (calendarInvoke (fun _ => "2030-01-01T00:00:00")) [] "u" "s" "t"
     [("action", "delete_all")] 0 emptySysState (by decide)⟩

/-- The `unsafe_tag` early return of the web-search result loop fires iff
some curated result survives the query filter. -/
theorem webScan_disallowed_tag (q tag : String) (rs : List CuratedResult)
    (h1 : tag ≠ "") (h2 : webAllowedTags.contains tag = false) :
    webScan q tag rs =
      if rs.any (webQueryPass q) then .error "unsafe_tag" else .ok [] := by
  have hmem : tag ∉ webAllowedTags := by simpa using h2
  induction rs with
  | nil => simp [webScan]
  | cons r rest ih =>
      by_cases hp : webQueryPass q r
      · simp [webScan, hp, h1, h2, hmem]
      · simp [webScan, hp, ih]

/-- C7 (counterexample): `web.search` called with the disallowed tag
"news" (and empty query) returns diagnostics error "unsafe_tag" — not the
"guardrail_violation" the claim asserts, because the tag whitelist is
checked inside `invoke`, not by `is_allowed`. -/
theorem web_disallowed_tag_counterexample :
    ((registryCall (defaultTools (fun _ => "") []) "web.search" "u" "s" "t"
          [("query", ""), ("tag", "news")] 0 emptySysState).toOption.map
        (fun p => (p.1.success, alistGet "error" p.1.diagnostics)))
      = some (false, some (Val.s "unsafe_tag")) := rfl

/-- C7 (amended): a tag outside {metrics, tools, education} passes the
guardrail check (which only limits the argument count) and is rejected
inside `invoke`: if any curated result survives the query substring
filter the call returns `success=false` with diagnostics error
"unsafe_tag"; if the query filters out every result the call returns
`success=true` with an empty hit list.  Memory is untouched either way. -/
theorem web_disallowed_tag_behavior
    (resolveDate : Option String → String) (docsRecords : List DocRecord)
    (user session trace : String) (args : List (String × String)) (now : ℚ)
    (st : SysState)
    (h1 : args.length ≤ 4)
    (h2 : strLower (orDefault (alistGet "tag" args) "") ≠ "")
    (h3 : webAllowedTags.contains (strLower (orDefault (alistGet "tag" args) ""))
        = false) :
    ∃ res st',
      registryCall (defaultTools resolveDate docsRecords) "web.search"
          user session trace args now st = .ok (res, st') ∧
      st'.mem = st.mem ∧
      ((curatedResults.any
            (webQueryPass (strLower (orDefault (alistGet "query" args) ""))) = true ∧
          res.success = false ∧
          alistGet "error" res.diagnostics = some (.s "unsafe_tag")) ∨
        (curatedResults.any
            (webQueryPass (strLower (orDefault (alistGet "query" args) ""))) = false ∧
          res.success = true ∧ res.output = .dict [("hits", .list [])])) := by
  have hscan :=
    webScan_disallowed_tag (strLower (orDefault (alistGet "query" args) ""))
      (strLower (orDefault (alistGet "tag" args) "")) curatedResults h2 h3
  have hfind :
      (defaultTools resolveDate docsRecords).find? (fun t => t.name == "web.search")
        = some webTool := rfl
  have hallow :
      webTool.is_allowed ⟨"web.search", args, user, session, trace⟩ = true := by
    simpa [webTool, baseAllowed] using h1
  by_cases hq :
      curatedResults.any
        (webQueryPass (strLower (orDefault (alistGet "query" args) ""))) = true
  · rw [if_pos hq] at hscan
    have hinv :
        webTool.invoke ⟨"web.search", args, user, session, trace⟩ now st
          = .ok (⟨"web.search", false, .dict [], [("error", .s "unsafe_tag")]⟩, st) := by
      simp [webTool, webInvoke, hscan]
    exact ⟨_, _,
      registryCall_invoked _ _ user session trace args now st _ _ _ hfind hallow hinv,
      rfl, Or.inl ⟨hq, rfl, by simp [alistGet]⟩⟩
  · rw [Bool.not_eq_true] at hq
    rw [if_neg (by simp [hq])] at hscan
    have hinv :
        webTool.invoke ⟨"web.search", args, user, session, trace⟩ now st
          = .ok (⟨"web.search", true, .dict [("hits", .list [])],
              [("query", .s (strLower (orDefault (alistGet "query" args) ""))),
               ("tag", .s (strLower (orDefault (alistGet "tag" args) ""))),
               ("hit_count", .n 0)]⟩, st) := by
      simp [webTool, webInvoke, hscan]
    exact ⟨_, _,
      registryCall_invoked _ _ user session trace args now st _ _ _ hfind hallow hinv,
      rfl, Or.inr ⟨hq, rfl, rfl⟩⟩

/-- Concrete instantiation of the amended web-tag theorem: empty query and
tag "news" hit the `unsafe_tag` branch. -/
theorem web_disallowed_tag_behavior_witness :
    ([("query", ""), ("tag", "news")] : List (String × String)).length ≤ 4 ∧
    ∃ res st',
      registryCall (defaultTools (fun _ => "") []) "web.search"
          "u" "s" "t" [("query", ""), ("tag", "news")] 0 emptySysState
        = .ok (res, st') ∧
      st'.mem = emptySysState.mem ∧
      ((curatedResults.any
            (webQueryPass (strLower (orDefault
              (alistGet "query" [("query", ""), ("tag", "news")]) ""))) = true ∧
          res.success = false ∧
          alistGet "error" res.diagnostics = some (.s "unsafe_tag")) ∨
        (curatedResults.any
            (webQueryPass (strLower (orDefault
              (alistGet "query" [("query", ""), ("tag", "news")]) ""))) = false ∧
          res.success = true ∧ res.output = .dict [("hits", .list [])])) :=
  ⟨by decide,
   web_disallowed_tag_behavior (fun _ => "") [] "u" "s" "t"
     [("query", ""), ("tag", "news")] 0 emptySysState (by decide) (by decide)
     (by decide)⟩

/-- C10: `ToolRegistry.call` raises (`Except.error`) exactly on unknown
tool names; for every registered name it returns a `ToolResult`, even when
the tool's `invoke` raises. -/
theorem registry_call_unknown_raises_registered_returns
    (tools : List ToolImpl) (name user session trace : String)
    (args : List (String × String)) (now : ℚ) (st : SysState) :
    (tools.find? (fun t => t.name == name) = none →
      registryCall tools name user session trace args now st
        = .error ("Unknown tool: " ++ name)) ∧
    (∀ tool, tools.find? (fun t => t.name == name) = some tool →
      ∃ res st',
        registryCall tools name user session trace args now st
          = .ok (res, st')) := by
  constructor
  · intro h
    simp [registryCall, h]
  · intro tool h
    by_cases ha : tool.is_allowed ⟨name, args, user, session, trace⟩ = true
    · cases hi : tool.invoke ⟨name, args, user, session, trace⟩ now st with
      | ok p =>
          exact ⟨_, _,
            registryCall_invoked tools name user session trace args now st tool
              p.1 p.2 h ha (by rw [hi])⟩
      | error e =>
          exact ⟨_, _,
            registryCall_raised tools name user session trace args now st tool
              e h ha hi⟩
    · rw [Bool.not_eq_true] at ha
      exact ⟨_, _,
        registryCall_blocked tools name user session trace args now st tool h ha⟩

/-- A tool whose `invoke` always raises, used to instantiate the registry
theorem. -/
def boomTool : ToolImpl :=
  ⟨"boom", fun _ => true, fun _ _ _ => .error "kaboom"⟩

/-- Concrete instantiation of the registry error-contract theorem: an
unregistered name raises, while a registered tool whose `invoke` raises
still produces a `ToolResult`. -/
theorem registry_call_unknown_raises_registered_returns_witness :
    (registryCall [boomTool] "nope" "u" "s" "t" [] 0 emptySysState
        = .error "Unknown tool: nope") ∧
    (∃ res st',
      registryCall [boomTool] "boom" "u" "s" "t" [] 0 emptySysState
        = .ok (res, st')) :=
  ⟨(registry_call_unknown_raises_registered_returns [boomTool] "nope" "u" "s" "t"
      [] 0 emptySysState).1 rfl,
   (registry_call_unknown_raises_registered_returns [boomTool] "boom" "u" "s" "t"
      [] 0 emptySysState).2 boomTool rfl⟩

/-! ## PlannerAgent (`smart_buddy/agents/planner.py`) -/

/-- The envelope payload as consumed by the planner and produced by the
router.  `trace_id` is `Option` because direct callers (the tests) omit
`meta`. -/
structure Envelope where
  user_id : String
  session_id : String
  text : String
  intent : Option IntentPrediction
  trace_id : Option String

/-- External collaborators of one planner call: `time.time()`, the two
`uuid.uuid4()` draws, `datetime` parsing inside the calendar tool and the
docs index read from disk at registry construction. -/
structure PlannerCfg where
  now : ℚ
  planId : String
  freshTrace : String
  resolveDate : Option String → String
  docsRecords : List DocRecord

/-- `payload.get("intent") or {}` followed by `.get("confidence", 0)`. -/
def envConfidence (env : Envelope) : PyVal :=
  match env.intent with
  | none => .pyNum 0
  | some ip => ip.confidence

/-- The fixed 8-item scaffold of `PlannerAgent._draft_plan`. -/
def scaffolding : List String :=
  ["Clarify success criteria", "Research constraints", "Design approach",
   "Prototype or pilot", "Measure outcomes", "Iterate and scale",
   "Document learnings", "Share results"]

/-- `PlannerAgent._draft_plan`: exactly `depth.steps` entries, cycling
through the scaffold modulo its length. -/
def draftPlan (goal : String) (depth : Depth) : List PlanStep :=
  (List.range depth.steps).map (fun idx =>
    ⟨idx + 1,
     scaffolding.getD (idx % scaffolding.length) "" ++ " for the goal: " ++ goal ++ ".",
     "Evidence of progress captured in notes and metrics.", "planned"⟩)

/-- `PlannerAgent._maybe_call_tool`: first-match-wins tool selection and
the registry call. -/
def maybeCallTool (cfg : PlannerCfg) (step : PlanStep)
    (goal user session trace : String) (st : SysState) :
    Except String (Option ToolCallEntry × SysState) :=
  let actionText := strLower step.action
  let goalText := strLower goal
  let sel : Option (String × List (String × String)) :=
    if strContains actionText "research" || strContains actionText "document" then
      some ("docs.lookup", [("query", strTake goal 160)])
    else if ["measure", "monitor", "scan"].any (strContains actionText) then
      some ("web.search", [("query", (splitWords goal).headD ""), ("tag", "metrics")])
    else if ["schedule", "calendar", "onboard"].any (strContains goalText) then
      some ("calendar.manage", [("action", "add_hold"), ("title", strTake goal 60)])
    else none
  match sel with
  | none => .ok (none, st)
  | some (nm, args) =>
      match registryCall (defaultTools cfg.resolveDate cfg.docsRecords) nm user
          session (trace ++ ":" ++ toString step.step) args cfg.now st with
      | .error e => .error e
      | .ok (res, st') =>
          let diag :=
            if res.success then res.diagnostics
            else
              match alistGet "warning" res.diagnostics with
              | some _ => res.diagnostics
              | none => res.diagnostics ++ [("warning", .s "guardrail or runtime failure")]
          .ok (some ⟨step.step, res.name, res.success, res.output, diag⟩, st')

/-- `PlannerAgent._execute_plan`: one "completed" log entry per step plus
the conditional tool call. -/
def executePlan (cfg : PlannerCfg) (goal user session trace : String) :
    List PlanStep → SysState →
      Except String (List ExecEntry × List ToolCallEntry × SysState)
  | [], st => .ok ([], [], st)
  | step :: rest, st =>
      let entry : ExecEntry :=
        ⟨step.step, step.action,
         "Validated step " ++ toString step.step ++
           " by defining deliverables and aligning them with the goal.",
         "completed"⟩
      match maybeCallTool cfg step goal user session trace st with
      | .error e => .error e
      | .ok (tc?, st') =>
          match executePlan cfg goal user session trace rest st' with
          | .error e => .error e
          | .ok (log, tcs, st'') =>
              .ok (entry :: log,
                (match tc? with | some tc => tc :: tcs | none => tcs), st'')

/-- `PlannerAgent._reflect`. -/
def reflect (planSteps : List PlanStep) (depth : Depth) : String :=
  "Completed " ++ toString planSteps.length ++ " steps with " ++
    (if depth.reflection_prompts > 1 then "comprehensive" else "quick") ++
    " reflection. Key takeaway: keep tracking metrics after each iteration to detect risks early."

/-- `PlannerAgent._format_response`. -/
def formatResponse (plan : Checkpoint) : String :=
  "🧭 **Multi-Step Plan Created**\n\n" ++
    "Goal: " ++ plan.goal ++ "\n" ++
    "Depth: " ++ plan.depth.level ++ " (" ++ toString plan.depth.steps ++ " steps)\n\n" ++
    "First steps:\n" ++
    String.intercalate "\n"
      ((plan.steps.take 4).map (fun step => toString step.step ++ ". " ++ step.action)) ++
    "\n\n" ++ "Reflection: " ++ plan.reflection

/-- The reply of the resume branch. -/
def resumeReply (cp : Checkpoint) : String :=
  "Resuming your most recent plan for \"" ++ cp.goal ++
    "\". You can start from any step or ask for adjustments."

/-- The three dictionary shapes `PlannerAgent.handle` returns, plus the
default echo reply used by the router. -/
inductive HandleResult : Type where
  | error (err reply : String)
  | resumed (checkpoint : Checkpoint) (reply : String)
  | completed (plan : Checkpoint) (reply : String)
  | okReply (reply : String)

/-- The `plan_state` dict assembled at the end of `PlannerAgent.handle`,
including the four timeline entries appended along the way. -/
def buildPlan (cfg : PlannerCfg) (env : Envelope) (depth : Depth)
    (execLog : List ExecEntry) (toolCalls : List ToolCallEntry) : Checkpoint :=
  ⟨cfg.planId, env.user_id, env.session_id, strTrim env.text, depth,
   draftPlan (strTrim env.text) depth, execLog, toolCalls,
   reflect (draftPlan (strTrim env.text) depth) depth,
   [⟨"depth", "level=" ++ depth.level ++ " steps=" ++ toString depth.steps, cfg.now⟩,
    ⟨"plan", "drafted " ++ toString (draftPlan (strTrim env.text) depth).length ++ " steps", cfg.now⟩,
    ⟨"execute", "logged " ++ toString execLog.length ++ " execution notes", cfg.now⟩,
    ⟨"reflect", strTake (reflect (draftPlan (strTrim env.text) depth) depth) 160, cfg.now⟩],
   true, cfg.now⟩

/-- `PlannerAgent.handle`.  A stored checkpoint is always a non-empty dict,
so Python's `if checkpoint:` truthiness test is the `some` case of the
lookup.  The `TypeError` raised by `_determine_depth` on a string
confidence propagates as `Except.error`. -/
def handle (cfg : PlannerCfg) (env : Envelope) (st : SysState) :
    Except String (HandleResult × SysState) :=
  if strTrim env.text = "" then
    .ok (.error "missing_goal" "Please describe what you want to plan.", st)
  else
    match alistGet env.user_id st.mem.planner_runs with
    | some cp => .ok (.resumed cp (resumeReply cp), st)
    | none =>
        match determineDepth (envConfidence env) (strTrim env.text) with
        | .error e => .error e
        | .ok depth =>
            match executePlan cfg (strTrim env.text) env.user_id env.session_id
                (orDefault env.trace_id cfg.freshTrace)
                (draftPlan (strTrim env.text) depth) st with
            | .error e => .error e
            | .ok (execLog, toolCalls, st₁) =>
                .ok (.completed (buildPlan cfg env depth execLog toolCalls)
                      (formatResponse (buildPlan cfg env depth execLog toolCalls)),
                  memSetPlannerRuns cfg.now (some (orDefault env.trace_id cfg.freshTrace))
                    env.user_id (buildPlan cfg env depth execLog toolCalls) st₁)

/-! ## RouterAgent (`smart_buddy/agents/router.py`)

The task and emotion personas (`GeneralAgent`, `BestFriendAgent`) are
external collaborators of the routing core; `route` is parameterised over
their handlers. -/

def route (gh bh : Envelope → SysState → Except String (HandleResult × SysState))
    (cfg : PlannerCfg) (traceId user session text : String) (st : SysState) :
    Except String ((Envelope × HandleResult) × SysState) :=
  let ip := classify text
  let env : Envelope := ⟨user, session, text, some ip, some traceId⟩
  match
    (if ip.intent = "task" then gh env st
     else if ip.intent = "planner" then handle cfg env st
     else if ip.intent = "emotion" then bh env st
     else .ok (.okReply ("Handled by general router: " ++ strTake text 120), st)) with
  | .error e => .error e
  | .ok (r, st₁) =>
      .ok ((env, r), memSetSessions cfg.now (some traceId) session ⟨user, ip⟩ st₁)

/-! ## Planner pipeline lemmas -/

theorem draftPlan_length (g : String) (d : Depth) :
    (draftPlan g d).length = d.steps := by
  simp [draftPlan]

theorem docsInvoke_ok (records : List DocRecord) (req : ToolRequest) (now : ℚ)
    (st : SysState) : ∃ res, docsInvoke records req now st = .ok (res, st) := by
  by_cases hc :
      (strTrim (orDefault (alistGet "query" req.arguments) "") = "" ∨
        (strTrim (orDefault (alistGet "query" req.arguments) "")).length > 160)
  · simp only [docsInvoke]
    rw [if_pos hc]
    exact ⟨_, rfl⟩
  · simp only [docsInvoke]
    rw [if_neg hc]
    exact ⟨_, rfl⟩

theorem webInvoke_ok (req : ToolRequest) (now : ℚ) (st : SysState) :
    ∃ res, webInvoke req now st = .ok (res, st) := by
  cases hs :
      webScan (strLower (orDefault (alistGet "query" req.arguments) ""))
        (strLower (orDefault (alistGet "tag" req.arguments) "")) curatedResults with
  | error e =>
      refine ⟨⟨"web.search", false, .dict [], [("error", .s "unsafe_tag")]⟩, ?_⟩
      simp only [webInvoke, hs]
  | ok hits =>
      refine
        ⟨⟨"web.search", true, .dict [("hits", .list ((hits.take 3).map curatedVal))],
          [("query", .s (strLower (orDefault (alistGet "query" req.arguments) ""))),
           ("tag", .s (strLower (orDefault (alistGet "tag" req.arguments) ""))),
           ("hit_count", .n (hits.take 3).length)]⟩, ?_⟩
      simp only [webInvoke, hs]

theorem calendarInvoke_ok (rd : Option String → String) (req : ToolRequest)
    (now : ℚ) (st : SysState) :
    ∃ res st', calendarInvoke rd req now st = .ok (res, st') ∧
      st'.mem.planner_runs = st.mem.planner_runs := by
  by_cases ha : orDefault (alistGet "action" req.arguments) "list_upcoming" = "add_hold"
  · by_cases ht :
        strTake (strTrim (orDefault (alistGet "title" req.arguments) "Hold")) 80 = ""
    · simp only [calendarInvoke]
      rw [if_pos ha, if_pos ht]
      exact ⟨_, _, rfl, rfl⟩
    · simp only [calendarInvoke]
      rw [if_pos ha, if_neg ht]
      exact ⟨_, _, rfl, rfl⟩
  · simp only [calendarInvoke]
    rw [if_neg ha]
    exact ⟨_, _, rfl, rfl⟩

/-- Every tool call the planner can emit goes through the registry without
raising and leaves the `planner_runs` namespace untouched. -/
theorem maybeCallTool_ok (cfg : PlannerCfg) (step : PlanStep)
    (goal user session trace : String) (st : SysState) :
    ∃ o st', maybeCallTool cfg step goal user session trace st = .ok (o, st') ∧
      st'.mem.planner_runs = st.mem.planner_runs := by
  by_cases h1 :
      (strContains (strLower step.action) "research" ||
        strContains (strLower step.action) "document") = true
  · obtain ⟨res, hres⟩ :=
      docsInvoke_ok cfg.docsRecords
        ⟨"docs.lookup", [("query", strTake goal 160)], user, session,
         trace ++ ":" ++ toString step.step⟩ cfg.now st
    have hcall :=
      registryCall_invoked (defaultTools cfg.resolveDate cfg.docsRecords)
        "docs.lookup" user session (trace ++ ":" ++ toString step.step)
        [("query", strTake goal 160)] cfg.now st (docsTool cfg.docsRecords)
        res st rfl rfl hres
    simp only [maybeCallTool, h1, if_true, hcall]
    exact ⟨_, _, rfl, rfl⟩
  · by_cases h2 :
        (["measure", "monitor", "scan"].any (strContains (strLower step.action))) = true
    · obtain ⟨res, hres⟩ :=
        webInvoke_ok
          ⟨"web.search", [("query", (splitWords goal).headD ""), ("tag", "metrics")],
           user, session, trace ++ ":" ++ toString step.step⟩ cfg.now st
      have hcall :=
        registryCall_invoked (defaultTools cfg.resolveDate cfg.docsRecords)
          "web.search" user session (trace ++ ":" ++ toString step.step)
          [("query", (splitWords goal).headD ""), ("tag", "metrics")] cfg.now st
          webTool res st rfl rfl hres
      simp only [maybeCallTool, h1, h2, if_true, if_false, Bool.false_eq_true, hcall]
      exact ⟨_, _, rfl, rfl⟩
    · by_cases h3 :
          (["schedule", "calendar", "onboard"].any (strContains (strLower goal))) = true
      · obtain ⟨res, st', hres, hpr⟩ :=
          calendarInvoke_ok cfg.resolveDate
            ⟨"calendar.manage", [("action", "add_hold"), ("title", strTake goal 60)],
             user, session, trace ++ ":" ++ toString step.step⟩ cfg.now st
        have hcall :=
          registryCall_invoked (defaultTools cfg.resolveDate cfg.docsRecords)
            "calendar.manage" user session (trace ++ ":" ++ toString step.step)
            [("action", "add_hold"), ("title", strTake goal 60)] cfg.now st
            (calendarTool cfg.resolveDate) res st' rfl rfl hres
        simp only [maybeCallTool, h1, h2, h3, if_true, if_false, Bool.false_eq_true, hcall]
        exact ⟨_, _, rfl, hpr⟩
      · simp only [maybeCallTool, h1, h2, h3, if_false, Bool.false_eq_true]
        exact ⟨_, _, rfl, rfl⟩

/-- `_execute_plan` never raises, produces one log entry per step and
leaves the `planner_runs` namespace untouched. -/
theorem executePlan_ok (cfg : PlannerCfg) (goal user session trace : String) :
    ∀ (steps : List PlanStep) (st : SysState),
      ∃ log tcs st',
        executePlan cfg goal user session trace steps st = .ok (log, tcs, st') ∧
        log.length = steps.length ∧
        st'.mem.planner_runs = st.mem.planner_runs := by
  intro steps
  induction steps with
  | nil => exact fun st => ⟨[], [], st, rfl, rfl, rfl⟩
  | cons step rest ih =>
      intro st
      obtain ⟨o, st', hmc, hpr⟩ := maybeCallTool_ok cfg step goal user session trace st
      obtain ⟨log, tcs, st'', hex, hlen, hpr'⟩ := ih st'
      cases o with
      | none =>
          refine
            ⟨⟨step.step, step.action,
              "Validated step " ++ toString step.step ++
                " by defining deliverables and aligning them with the goal.",
              "completed"⟩ :: log, tcs, st'', ?_, ?_, hpr'.trans hpr⟩
          · simp only [executePlan, hmc, hex]
          · simp [hlen]
      | some tc =>
          refine
            ⟨⟨step.step, step.action,
              "Validated step " ++ toString step.step ++
                " by defining deliverables and aligning them with the goal.",
              "completed"⟩ :: log, tc :: tcs, st'', ?_, ?_, hpr'.trans hpr⟩
          · simp only [executePlan, hmc, hex]
          · simp [hlen]

/-- When the goal is non-blank, no checkpoint exists and the confidence is
numeric, `handle` completes: it returns `status="completed"` with a plan
whose goal is the stripped text, whose steps are the drafted plan, whose
execution log matches the steps in length, and which is persisted under
`planner_runs[user_id]`. -/
theorem handle_completed (cfg : PlannerCfg) (env : Envelope) (st : SysState)
    (q : ℚ)
    (hgoal : strTrim env.text ≠ "")
    (hconf : envConfidence env = .pyNum q)
    (hnone : alistGet env.user_id st.mem.planner_runs = none) :
    ∃ plan reply st',
      handle cfg env st = .ok (.completed plan reply, st') ∧
      plan.goal = strTrim env.text ∧
      plan.steps = draftPlan (strTrim env.text) plan.depth ∧
      plan.execution_log.length = plan.steps.length ∧
      alistGet env.user_id st'.mem.planner_runs = some plan := by
  obtain ⟨depth, hd⟩ :
      ∃ d, determineDepth (envConfidence env) (strTrim env.text) = .ok d := by
    rw [hconf]; exact ⟨_, rfl⟩
  obtain ⟨log, tcs, st₁, hex, hlen, -⟩ :=
    executePlan_ok cfg (strTrim env.text) env.user_id env.session_id
      (orDefault env.trace_id cfg.freshTrace) (draftPlan (strTrim env.text) depth) st
  refine
    ⟨buildPlan cfg env depth log tcs,
     formatResponse (buildPlan cfg env depth log tcs),
     memSetPlannerRuns cfg.now (some (orDefault env.trace_id cfg.freshTrace))
       env.user_id (buildPlan cfg env depth log tcs) st₁, ?_, rfl, rfl, hlen, ?_⟩
  · simp only [handle]
    rw [if_neg hgoal]
    simp only [hnone, hd, hex]
  · exact alistGet_upsert env.user_id _ st₁.mem.planner_runs

theorem draftPlan_map_step (g : String) (d : Depth) :
    (draftPlan g d).map (fun s => s.step) = List.range' 1 d.steps := by
  simp only [draftPlan, List.map_map]
  rw [List.range'_eq_map_range]
  simp [Function.comp, Nat.add_comm]

theorem draftPlan_map_action (g : String) (d : Depth) :
    (draftPlan g d).map (fun s => s.action)
      = (List.range d.steps).map
          (fun i => scaffolding.getD (i % 8) "" ++ " for the goal: " ++ g ++ ".") := by
  simp only [draftPlan, List.map_map]
  rfl

/-! ## Planner claim theorems -/

/-- C1 (counterexample): a first `handle` call with a non-empty goal, no
stored checkpoint and the classifier-shaped intent payload (whose
confidence is the string "0.9") raises `TypeError` instead of returning
`status="completed"`. -/
theorem handle_str_confidence_raises :
    handle ⟨0, "plan-1", "tr-1", fun _ => "", []⟩
        ⟨"u", "s", "plan my day", some ⟨"planner", .pyStr "0.9"⟩, some "tr"⟩
        emptySysState
      = .error "TypeError: '>=' not supported between instances of 'str' and 'float'" := rfl

/-- C1 (amended): restricted to a numeric (or absent) intent confidence,
planner resume is idempotent per user: a call with a non-empty goal and no
checkpoint under `planner_runs[user_id]` returns `status="completed"` and
persists a checkpoint whose `goal` equals the stripped submitted text, and
every call for that user with a non-empty goal while a checkpoint `cp` is
stored returns `status="resumed"` with `cp`, leaves the entire state (in
particular the stored checkpoint) unchanged and does no planning work. -/
theorem planner_resume_idempotent
    (cfg cfg₂ : PlannerCfg) (env env₂ : Envelope) (st st₂ : SysState)
    (cp : Checkpoint) (q : ℚ)
    (h1 : strTrim env.text ≠ "")
    (h2 : envConfidence env = .pyNum q)
    (h3 : alistGet env.user_id st.mem.planner_runs = none)
    (_h4 : env₂.user_id = env.user_id)
    (h5 : strTrim env₂.text ≠ "")
    (h6 : alistGet env₂.user_id st₂.mem.planner_runs = some cp) :
    (∃ plan reply st',
      handle cfg env st = .ok (.completed plan reply, st') ∧
      plan.goal = strTrim env.text ∧
      alistGet env.user_id st'.mem.planner_runs = some plan) ∧
    handle cfg₂ env₂ st₂ = .ok (.resumed cp (resumeReply cp), st₂) := by
  constructor
  · obtain ⟨plan, reply, st', hc, hg, -, -, hp⟩ :=
      handle_completed cfg env st q h1 h2 h3
    exact ⟨plan, reply, st', hc, hg, hp⟩
  · simp only [handle]
    rw [if_neg h5]
    simp only [h6]

/-- Concrete inputs for instantiating the planner idempotence theorem. -/
def c1Cfg : PlannerCfg := ⟨0, "plan-1", "tr-1", fun _ => "", []⟩

def c1Env : Envelope := ⟨"u1", "s1", "Organize shelves", none, some "tr"⟩

def c1EnvSecond : Envelope := ⟨"u1", "s1", "Another goal", none, some "tr2"⟩

/-- The state persisted by the concrete first planner run. -/
def c1AfterFirst : SysState :=
  match handle c1Cfg c1Env emptySysState with
  | .ok (_, s) => s
  | .error _ => emptySysState

/-- The checkpoint persisted by the concrete first planner run. -/
def c1Plan : Checkpoint :=
  match handle c1Cfg c1Env emptySysState with
  | .ok (.completed p _, _) => p
  | _ => ⟨"", "", "", "", ⟨0, "", 0⟩, [], [], [], "", [], false, 0⟩

/-- Concrete instantiation of planner idempotence: first call on the empty
store, second call on the state the first call persisted. -/
theorem planner_resume_idempotent_witness :
    (strTrim c1Env.text ≠ "" ∧
      alistGet c1Env.user_id emptySysState.mem.planner_runs = none ∧
      strTrim c1EnvSecond.text ≠ "" ∧
      alistGet c1EnvSecond.user_id c1AfterFirst.mem.planner_runs = some c1Plan) ∧
    ((∃ plan reply st',
        handle c1Cfg c1Env emptySysState = .ok (.completed plan reply, st') ∧
        plan.goal = strTrim c1Env.text ∧
        alistGet c1Env.user_id st'.mem.planner_runs = some plan) ∧
      handle c1Cfg c1EnvSecond c1AfterFirst
        = .ok (.resumed c1Plan (resumeReply c1Plan), c1AfterFirst)) :=
  ⟨⟨by decide, rfl, by decide, rfl⟩,
   planner_resume_idempotent c1Cfg c1Cfg c1Env c1EnvSecond emptySysState
     c1AfterFirst c1Plan 0 (by decide) rfl rfl rfl (by decide) rfl⟩

/-- C9: every completed plan returned by `handle` satisfies
`len(execution_log) = len(steps) = depth.steps`, with steps numbered
1..depth.steps in order and actions drafted by cycling the fixed 8-item
scaffold modulo 8. -/
theorem planner_completed_step_log_parity
    (cfg : PlannerCfg) (env : Envelope) (st : SysState)
    (plan : Checkpoint) (reply : String) (st' : SysState)
    (h : handle cfg env st = .ok (.completed plan reply, st')) :
    plan.execution_log.length = plan.depth.steps ∧
    plan.steps.length = plan.depth.steps ∧
    plan.steps.map (fun s => s.step) = List.range' 1 plan.depth.steps ∧
    plan.steps.map (fun s => s.action)
      = (List.range plan.depth.steps).map
          (fun i => scaffolding.getD (i % 8) "" ++ " for the goal: " ++ plan.goal ++ ".") := by
  simp only [handle] at h
  by_cases hg : strTrim env.text = ""
  · rw [if_pos hg] at h
    exact absurd h (by simp)
  rw [if_neg hg] at h
  cases hcp : alistGet env.user_id st.mem.planner_runs with
  | some cp =>
      rw [hcp] at h
      exact absurd h (by simp)
  | none =>
      simp only [hcp] at h
      cases hd : determineDepth (envConfidence env) (strTrim env.text) with
      | error e =>
          rw [hd] at h
          exact absurd h (by simp)
      | ok depth =>
          simp only [hd] at h
          obtain ⟨log, tcs, st₁, hex, hlen, -⟩ :=
            executePlan_ok cfg (strTrim env.text) env.user_id env.session_id
              (orDefault env.trace_id cfg.freshTrace)
              (draftPlan (strTrim env.text) depth) st
          simp only [hex, Except.ok.injEq, Prod.mk.injEq,
            HandleResult.completed.injEq] at h
          obtain ⟨⟨hpl, -⟩, -⟩ := h
          subst hpl
          refine ⟨?_, ?_, ?_, ?_⟩
          · simpa [buildPlan, draftPlan_length] using hlen
          · simp [buildPlan, draftPlan_length]
          · simpa [buildPlan] using draftPlan_map_step (strTrim env.text) depth
          · simpa [buildPlan] using draftPlan_map_action (strTrim env.text) depth

/-- Concrete inputs for the step/log parity theorem. -/
def c9Cfg : PlannerCfg := ⟨0, "plan-9", "tr-9", fun _ => "", []⟩

def c9Env : Envelope := ⟨"u9", "s9", "Tidy the desk", none, some "t9"⟩

def c9Plan : Checkpoint :=
  match handle c9Cfg c9Env emptySysState with
  | .ok (.completed p _, _) => p
  | _ => ⟨"", "", "", "", ⟨0, "", 0⟩, [], [], [], "", [], false, 0⟩

def c9Reply : String :=
  match handle c9Cfg c9Env emptySysState with
  | .ok (.completed _ r, _) => r
  | _ => ""

def c9After : SysState :=
  match handle c9Cfg c9Env emptySysState with
  | .ok (_, s) => s
  | .error _ => emptySysState

/-- Concrete instantiation of step/log parity on a completed run. -/
theorem planner_completed_step_log_parity_witness :
    (handle c9Cfg c9Env emptySysState = .ok (.completed c9Plan c9Reply, c9After)) ∧
    (c9Plan.execution_log.length = c9Plan.depth.steps ∧
     c9Plan.steps.length = c9Plan.depth.steps ∧
     c9Plan.steps.map (fun s => s.step) = List.range' 1 c9Plan.depth.steps ∧
     c9Plan.steps.map (fun s => s.action)
       = (List.range c9Plan.depth.steps).map
           (fun i => scaffolding.getD (i % 8) "" ++ " for the goal: " ++ c9Plan.goal ++ ".")) :=
  ⟨rfl,
   planner_completed_step_log_parity c9Cfg c9Env emptySysState c9Plan c9Reply
     c9After rfl⟩

/-! ## Router claim theorem -/

/-- A stub persona handler standing in for the external `GeneralAgent` and
`BestFriendAgent` collaborators. -/
def echoHandler : Envelope → SysState → Except String (HandleResult × SysState) :=
  fun _ st => .ok (.okReply "stub", st)

/-- C4 (code bug): `route` for a planner-classified text on a fresh store
raises.  The classifier puts the *string* "0.9" into the envelope,
`_determine_depth` compares it against the float 0.85 (`TypeError`), and
`route` has no try/except around the dispatched handler, so the exception
reaches the caller instead of a `{envelope, result}` dictionary. -/
theorem route_planner_dispatch_raises :
    route echoHandler echoHandler ⟨0, "plan-1", "tr-1", fun _ => "", []⟩
        "t0" "u" "s" "plan my day" emptySysState
      = .error "TypeError: '>=' not supported between instances of 'str' and 'float'" := rfl

/-! ## RAGKnowledgeBase (`smart_buddy/rag.py`)

Float arithmetic is modelled over `ℝ`.  The sentence encoder and the
`re.findall` tokenizer are external collaborators and appear as the
parameters `encode` and `tokenize`; everything downstream of them
(stopword filtering, counting, scoring, sorting) is embedded from the
source. -/

structure Chunk where
  doc_id : String
  chunk_id : String
  title : String
  source : String
  content : String
  updated_at : ℝ
  embedding : List ℝ
  keywords : List (String × ℕ)

/-- `STOPWORDS` (the source set literal lists "will" twice). -/
def stopwords : List String :=
  ["the", "and", "you", "for", "that", "with", "are", "this", "was", "but",
   "have", "not", "your", "from", "will", "then", "been", "into", "about",
   "when", "what", "will", "their", "there"]

/-- One step of `collections.Counter`: count a token, keeping
first-occurrence key order. -/
def counterAdd : List (String × ℕ) → String → List (String × ℕ)
  | [], t => [(t, 1)]
  | (k, c) :: rest, t =>
      if k = t then (k, c + 1) :: rest else (k, c) :: counterAdd rest t

def counterOf (toks : List String) : List (String × ℕ) :=
  toks.foldl counterAdd []

/-- `RAGKnowledgeBase._keywords` on the token list produced by the regex
collaborator: drop stopwords and tokens of length ≤ 2, then count. -/
def keywordsOf (toks : List String) : List (String × ℕ) :=
  counterOf (toks.filter (fun t => !stopwords.contains t && t.length > 2))

/-- Multiplicity lookup in a keyword counter (`d.get(token, 0)`). -/
def counterGet (d : List (String × ℕ)) (t : String) : ℕ :=
  (alistGet t d).getD 0

/-- `RAGKnowledgeBase._cosine`, the deterministic pure-Python branch: both
sums run over `range(min(len a, len b))`, and a zero vector (or empty
list) yields 0. -/
noncomputable def cosineSim (a b : List ℝ) : ℝ :=
  if a.isEmpty || b.isEmpty then 0
  else
    if Real.sqrt (((a.take (min a.length b.length)).map (fun x => x * x)).sum) = 0 ∨
        Real.sqrt (((b.take (min a.length b.length)).map (fun x => x * x)).sum) = 0 then 0
    else
      ((a.zipWith (fun x y => x * y) b).sum) /
        (Real.sqrt (((a.take (min a.length b.length)).map (fun x => x * x)).sum) *
          Real.sqrt (((b.take (min a.length b.length)).map (fun x => x * x)).sum))

/-- `RAGKnowledgeBase._keyword_overlap`: shared-token multiplicity mass
over the query token count (floored at 1). -/
noncomputable def keywordOverlap (q d : List (String × ℕ)) : ℝ :=
  ((q.map (fun p => min p.2 (counterGet d p.1))).sum : ℝ) /
    ((max 1 ((q.map (fun p => p.2)).sum) : ℕ) : ℝ)

/-- The freshness factor of `search`: recency in days clamped at 0, the
factor clamped at 0.2. -/
noncomputable def freshness (now updated window : ℝ) : ℝ :=
  max 0.2 (1 - max 0 ((now - updated) / 86400) / window)

/-- The per-candidate score of `search`:
`0.6*cosine + 0.3*keyword_overlap + 0.1*freshness`. -/
noncomputable def chunkScore (qemb : List ℝ) (qk : List (String × ℕ))
    (now window : ℝ) (rec : Chunk) : ℝ :=
  0.6 * cosineSim qemb rec.embedding + 0.3 * keywordOverlap qk rec.keywords +
    0.1 * freshness now rec.updated_at window

structure SearchResult where
  score : ℝ
  content : String
  citation : String
  source : String
  title : String
  updated_at : ℝ

/-- `DocumentChunk.citation`. -/
def chunkCitation (rec : Chunk) : String :=
  rec.title ++ " (" ++ rec.source ++ ") • chunk " ++ rec.chunk_id

/-- One entry of the result list built by `search`. -/
def mkResult (score : ℝ) (rec : Chunk) : SearchResult :=
  ⟨score, rec.content, chunkCitation rec, rec.source, rec.title, rec.updated_at⟩

/-- Stable descending insertion on score, modelling
`list.sort(key=lambda x: x[0], reverse=True)` (Python's sort is stable;
with `reverse=True` equal keys keep their original order). -/
noncomputable def insDesc (x : ℝ × Chunk) : List (ℝ × Chunk) → List (ℝ × Chunk)
  | [] => [x]
  | y :: t => if y.1 ≤ x.1 then x :: y :: t else y :: insDesc x t

noncomputable def sortDesc : List (ℝ × Chunk) → List (ℝ × Chunk)
  | [] => []
  | x :: t => insDesc x (sortDesc t)

/-- `RAGKnowledgeBase.search`. -/
noncomputable def searchImpl (encode : String → List ℝ)
    (tokenize : String → List String) (now window : ℝ) (query : String)
    (topk : ℕ) (records : List Chunk) : List SearchResult :=
  if strTrim query = "" then []
  else
    ((sortDesc (records.map (fun rec =>
        (chunkScore (encode query) (keywordsOf (tokenize query)) now window rec,
         rec)))).take topk).map (fun p => mkResult p.1 p.2)

/-! ### The specification order: score descending, ties by insertion index -/

/-- "a comes before b": strictly higher score, or equal score and smaller
original index. -/
def lexRel (a b : ℕ × (ℝ × Chunk)) : Prop :=
  b.2.1 < a.2.1 ∨ (a.2.1 = b.2.1 ∧ a.1 < b.1)

noncomputable instance (a b : ℕ × (ℝ × Chunk)) : Decidable (lexRel a b) := by
  unfold lexRel
  infer_instance

noncomputable def insLex (x : ℕ × (ℝ × Chunk)) :
    List (ℕ × (ℝ × Chunk)) → List (ℕ × (ℝ × Chunk))
  | [] => [x]
  | y :: t => if lexRel x y then x :: y :: t else y :: insLex x t

noncomputable def sortLex : List (ℕ × (ℝ × Chunk)) → List (ℕ × (ℝ × Chunk))
  | [] => []
  | x :: t => insLex x (sortLex t)

theorem lexRel_trans {a b c : ℕ × (ℝ × Chunk)}
    (hab : lexRel a b) (hbc : lexRel b c) : lexRel a c := by
  rcases hab with h1 | ⟨h1, h1'⟩ <;> rcases hbc with h2 | ⟨h2, h2'⟩
  · exact Or.inl (h2.trans h1)
  · exact Or.inl (h2 ▸ h1)
  · exact Or.inl (lt_of_lt_of_eq h2 h1.symm)
  · exact Or.inr ⟨h1.trans h2, h1'.trans h2'⟩

theorem lexRel_total {a b : ℕ × (ℝ × Chunk)} (h : a.1 ≠ b.1) :
    lexRel a b ∨ lexRel b a := by
  rcases lt_trichotomy a.2.1 b.2.1 with hs | hs | hs
  · exact Or.inr (Or.inl hs)
  · rcases Nat.lt_or_ge a.1 b.1 with hi | hi
    · exact Or.inl (Or.inr ⟨hs, hi⟩)
    · exact Or.inr (Or.inr ⟨hs.symm, lt_of_le_of_ne hi (Ne.symm h)⟩)
  · exact Or.inl (Or.inl hs)

theorem insLex_perm (x : ℕ × (ℝ × Chunk)) (l : List (ℕ × (ℝ × Chunk))) :
    (insLex x l).Perm (x :: l) := by
  induction l with
  | nil => simp [insLex]
  | cons y t ih =>
      by_cases hc : lexRel x y
      · rw [insLex, if_pos hc]
      · rw [insLex, if_neg hc]
        exact ((ih.cons y).trans (List.Perm.swap x y t))

theorem sortLex_perm (l : List (ℕ × (ℝ × Chunk))) : (sortLex l).Perm l := by
  induction l with
  | nil => simp [sortLex]
  | cons x t ih => exact (insLex_perm x (sortLex t)).trans (ih.cons x)

theorem mem_insLex {z x : ℕ × (ℝ × Chunk)} {l : List (ℕ × (ℝ × Chunk))}
    (h : z ∈ insLex x l) : z = x ∨ z ∈ l := by
  have := (insLex_perm x l).mem_iff.mp h
  simpa using this

theorem insLex_pairwise (x : ℕ × (ℝ × Chunk)) (l : List (ℕ × (ℝ × Chunk)))
    (hp : l.Pairwise lexRel) (hx : ∀ y ∈ l, x.1 ≠ y.1) :
    (insLex x l).Pairwise lexRel := by
  induction l with
  | nil => simp [insLex, lexRel]
  | cons y t ih =>
      rcases List.pairwise_cons.mp hp with ⟨hyt, hpt⟩
      by_cases hc : lexRel x y
      · rw [insLex, if_pos hc]
        refine List.pairwise_cons.mpr ⟨?_, hp⟩
        intro z hz
        rcases List.mem_cons.mp hz with hz | hz
        · subst hz; exact hc
        · exact lexRel_trans hc (hyt z hz)
      · rw [insLex, if_neg hc]
        refine List.pairwise_cons.mpr
          ⟨?_, ih hpt (fun z hz => hx z (List.mem_cons_of_mem y hz))⟩
        intro z hz
        rcases mem_insLex hz with hz | hz
        · subst hz
          rcases lexRel_total (hx y (List.mem_cons_self y t)) with h | h
          · exact absurd h hc
          · exact h
        · exact hyt z hz

/-- Dropping the indices from a lex insertion gives the score-only stable
insertion, provided the inserted element's index precedes every index in
the list. -/
theorem map_insLex (x : ℕ × (ℝ × Chunk)) (l : List (ℕ × (ℝ × Chunk)))
    (h : ∀ y ∈ l, x.1 < y.1) :
    (insLex x l).map Prod.snd = insDesc x.2 (l.map Prod.snd) := by
  induction l with
  | nil => simp [insLex, insDesc]
  | cons y t ih =>
      have hxy := h y (List.mem_cons_self y t)
      by_cases hle : y.2.1 ≤ x.2.1
      · have hc : lexRel x y := by
          rcases lt_or_eq_of_le hle with hlt | heq
          · exact Or.inl hlt
          · exact Or.inr ⟨heq.symm, hxy⟩
        rw [insLex, if_pos hc]
        simp [insDesc, hle]
      · have hc : ¬ lexRel x y := by
          intro hcon
          rcases hcon with hlt | ⟨heq, -⟩
          · exact hle hlt.le
          · exact hle (le_of_eq heq.symm)
        rw [insLex, if_neg hc]
        simp only [List.map_cons, insDesc, if_neg hle]
        exact congrArg (y.2 :: ·) (ih (fun z hz => h z (List.mem_cons_of_mem y hz)))

theorem enumFrom_fst_le {α : Type} :
    ∀ (l : List α) (n : ℕ) (y : ℕ × α), y ∈ List.enumFrom n l → n ≤ y.1 := by
  intro l
  induction l with
  | nil => intro n y h; simp [List.enumFrom] at h
  | cons a t ih =>
      intro n y h
      rcases (by simpa [List.enumFrom] using h : y = (n, a) ∨ y ∈ List.enumFrom (n + 1) t) with
        h | h
      · simp [h]
      · exact (Nat.le_succ n).trans (ih (n + 1) y h)

theorem enumFrom_snd_mem {α : Type} :
    ∀ (l : List α) (n : ℕ) (y : ℕ × α), y ∈ List.enumFrom n l → y.2 ∈ l := by
  intro l
  induction l with
  | nil => intro n y h; simp [List.enumFrom] at h
  | cons a t ih =>
      intro n y h
      rcases (by simpa [List.enumFrom] using h : y = (n, a) ∨ y ∈ List.enumFrom (n + 1) t) with
        h | h
      · simp [h]
      · exact List.mem_cons_of_mem a (ih (n + 1) y h)

/-- Dropping the indices from the lex sort of an enumerated list is
exactly the implementation's stable descending sort. -/
theorem map_sortLex :
    ∀ (l : List (ℝ × Chunk)) (n : ℕ),
      (sortLex (List.enumFrom n l)).map Prod.snd = sortDesc l := by
  intro l
  induction l with
  | nil => intro n; simp [List.enumFrom, sortLex, sortDesc]
  | cons x t ih =>
      intro n
      have hidx : ∀ y ∈ sortLex (List.enumFrom (n + 1) t), n < y.1 := by
        intro y hy
        exact Nat.lt_of_lt_of_le (Nat.lt_succ_self n)
          (enumFrom_fst_le t (n + 1) y ((sortLex_perm _).mem_iff.mp hy))
      calc (sortLex (List.enumFrom n (x :: t))).map Prod.snd
          = (insLex (n, x) (sortLex (List.enumFrom (n + 1) t))).map Prod.snd := rfl
        _ = insDesc x ((sortLex (List.enumFrom (n + 1) t)).map Prod.snd) :=
            map_insLex (n, x) _ hidx
        _ = insDesc x (sortDesc t) := by rw [ih]
        _ = sortDesc (x :: t) := rfl

theorem sortLex_pairwise :
    ∀ (l : List (ℝ × Chunk)) (n : ℕ),
      (sortLex (List.enumFrom n l)).Pairwise lexRel := by
  intro l
  induction l with
  | nil => intro n; simp [List.enumFrom, sortLex]
  | cons x t ih =>
      intro n
      refine insLex_pairwise (n, x) _ (ih (n + 1)) ?_
      intro y hy
      exact Nat.ne_of_lt (Nat.lt_of_lt_of_le (Nat.lt_succ_self n)
        (enumFrom_fst_le t (n + 1) y ((sortLex_perm _).mem_iff.mp hy)))

/-- C2: for every record set and non-blank query, `search` returns the
top-`k` prefix of a ranking that is a permutation of the scored,
enumerated records, ordered by score descending with ties broken by
original insertion index, and every score is the formula
`0.6*cosine + 0.3*keyword_overlap + 0.1*freshness`. -/
theorem rag_search_spec (encode : String → List ℝ)
    (tokenize : String → List String) (now window : ℝ) (query : String)
    (topk : ℕ) (records : List Chunk)
    (hq : strTrim query ≠ "") :
    ∃ ranked : List (ℕ × (ℝ × Chunk)),
      ranked.Perm
        ((records.map (fun rec =>
          (chunkScore (encode query) (keywordsOf (tokenize query)) now window rec,
           rec))).enum) ∧
      ranked.Pairwise lexRel ∧
      (∀ p ∈ ranked,
        p.2.1 = chunkScore (encode query) (keywordsOf (tokenize query)) now window p.2.2) ∧
      searchImpl encode tokenize now window query topk records
        = (ranked.take topk).map (fun p => mkResult p.2.1 p.2.2) := by
  refine ⟨sortLex ((records.map (fun rec =>
      (chunkScore (encode query) (keywordsOf (tokenize query)) now window rec,
       rec))).enum), sortLex_perm _, sortLex_pairwise _ 0, ?_, ?_⟩
  · intro p hp
    have hp₂ := enumFrom_snd_mem _ 0 p ((sortLex_perm _).mem_iff.mp hp)
    rcases List.mem_map.mp hp₂ with ⟨rec, -, hrec⟩
    rw [← hrec]
  · rw [searchImpl, if_neg hq]
    rw [← map_sortLex _ 0]
    rw [← List.map_take, List.map_map]
    rfl

/-- Concrete instantiation of the search ranking theorem on the empty
record set with query "x". -/
theorem rag_search_spec_witness :
    (strTrim "x" ≠ "") ∧
    ∃ ranked : List (ℕ × (ℝ × Chunk)),
      ranked.Perm
        ((([] : List Chunk).map (fun rec =>
          (chunkScore ((fun _ => []) "x") (keywordsOf ((fun _ => []) "x")) 0 45 rec,
           rec))).enum) ∧
      ranked.Pairwise lexRel ∧
      (∀ p ∈ ranked,
        p.2.1 = chunkScore ((fun _ => []) "x") (keywordsOf ((fun _ => []) "x")) 0 45 p.2.2) ∧
      searchImpl (fun _ => []) (fun _ => []) 0 45 "x" 1 []
        = (ranked.take 1).map (fun p => mkResult p.2.1 p.2.2) :=
  ⟨by decide,
   rag_search_spec (fun _ => []) (fun _ => []) 0 45 "x" 1 [] (by decide)⟩

/-! ### Freshness eviction (`RAGKnowledgeBase.apply_freshness_policy`) -/

/-- The knowledge base's in-memory chunk list plus what `_save` has
persisted to disk. -/
structure RagState where
  records : List Chunk
  persisted : List Chunk

/-- `apply_freshness_policy`: keep chunks with
`updated_at >= now - max_age_days*86400`, return the removed count, call
`_save` only when the count is non-zero. -/
noncomputable def applyFreshnessPolicy (now : ℝ) (maxAgeDays : ℕ)
    (st : RagState) : ℕ × RagState :=
  ((st.records.length -
      (st.records.filter (fun r => decide (now - maxAgeDays * 86400 ≤ r.updated_at))).length),
   ⟨st.records.filter (fun r => decide (now - maxAgeDays * 86400 ≤ r.updated_at)),
    if st.records.length -
        (st.records.filter (fun r => decide (now - maxAgeDays * 86400 ≤ r.updated_at))).length
        ≠ 0 then
      st.records.filter (fun r => decide (now - maxAgeDays * 86400 ≤ r.updated_at))
    else st.persisted⟩)

theorem length_sub_filter {α : Type} (p : α → Bool) (l : List α) :
    l.length - (l.filter p).length = (l.filter (fun a => !(p a))).length := by
  induction l with
  | nil => rfl
  | cons a t ih =>
      have hle := t.length_filter_le p
      by_cases hp : p a <;> simp [List.filter_cons, hp] <;> omega

/-- C8: the eviction removes exactly the chunks strictly older than the
window (retained chunks keep their order as a sublist), returns the
removed count, restores nothing else, and persists exactly when at least
one chunk was removed. -/
theorem rag_freshness_policy_spec (now : ℝ) (maxAgeDays : ℕ) (st : RagState) :
    (applyFreshnessPolicy now maxAgeDays st).1
      = (st.records.filter (fun r => decide (r.updated_at < now - maxAgeDays * 86400))).length ∧
    (applyFreshnessPolicy now maxAgeDays st).2.records.Sublist st.records ∧
    (∀ r, r ∈ (applyFreshnessPolicy now maxAgeDays st).2.records ↔
      r ∈ st.records ∧ now - maxAgeDays * 86400 ≤ r.updated_at) ∧
    ((applyFreshnessPolicy now maxAgeDays st).1 = 0 →
      (applyFreshnessPolicy now maxAgeDays st).2 = st) ∧
    (0 < (applyFreshnessPolicy now maxAgeDays st).1 →
      (applyFreshnessPolicy now maxAgeDays st).2.persisted
        = (applyFreshnessPolicy now maxAgeDays st).2.records) := by
  refine ⟨?_, ?_, ?_, ?_, ?_⟩
  · simp only [applyFreshnessPolicy]
    have hfun : (fun a : Chunk => !decide (now - maxAgeDays * 86400 ≤ a.updated_at))
        = (fun r : Chunk => decide (r.updated_at < now - maxAgeDays * 86400)) := by
      funext r
      rw [← decide_not]
      exact decide_eq_decide.mpr not_le
    rw [length_sub_filter, hfun]
  · exact List.filter_sublist st.records
  · intro r
    simp only [applyFreshnessPolicy]
    simp [List.mem_filter]
  · intro h0
    simp only [applyFreshnessPolicy] at h0 ⊢
    have hall : st.records.filter
        (fun r => decide (now - maxAgeDays * 86400 ≤ r.updated_at)) = st.records := by
      have hle := st.records.length_filter_le
        (fun r => decide (now - maxAgeDays * 86400 ≤ r.updated_at))
      exact (List.filter_sublist st.records).eq_of_length (by omega)
    rw [hall]
    simp
  · intro hpos
    simp only [applyFreshnessPolicy] at hpos ⊢
    rw [if_pos (by omega)]

/-- A knowledge base with one chunk far outside a 5-day window and one
inside it, observed at `now` = 10 days (864000 seconds). -/
def c8State : RagState :=
  ⟨[⟨"d1", "1", "t1", "s1", "c1", 0, [], []⟩,
    ⟨"d2", "1", "t2", "s2", "c2", 500000, [], []⟩], []⟩

/-- Concrete instantiation of the freshness-eviction theorem. -/
theorem rag_freshness_policy_spec_witness :
    ((applyFreshnessPolicy 864000 5 c8State).1
      = (c8State.records.filter
          (fun r => decide (r.updated_at < 864000 - ((5:ℕ) : ℝ) * 86400))).length) ∧
    ((applyFreshnessPolicy 864000 5 c8State).2.records.Sublist c8State.records) ∧
    (∀ r, r ∈ (applyFreshnessPolicy 864000 5 c8State).2.records ↔
      r ∈ c8State.records ∧ 864000 - ((5:ℕ) : ℝ) * 86400 ≤ r.updated_at) ∧
    ((applyFreshnessPolicy 864000 5 c8State).1 = 0 →
      (applyFreshnessPolicy 864000 5 c8State).2 = c8State) ∧
    (0 < (applyFreshnessPolicy 864000 5 c8State).1 →
      (applyFreshnessPolicy 864000 5 c8State).2.persisted
        = (applyFreshnessPolicy 864000 5 c8State).2.records) :=
  rag_freshness_policy_spec 864000 5 c8State

end SmartBuddy
